import Mathlib

/-!
Verification of the Anamneon encrypted-storage core.

This file shallowly embeds the per-user encrypted storage subsystem of the
repository: the text cipher and file cipher (src/main/encryption.ts), the
password hasher, the in-memory session key store, the IPC request handlers
that encrypt/decrypt around the persistence layer, and the schema-migration
step of the database layer (src/storage/database.ts).

Modelling conventions for the cryptographic primitives:
the format layer (hex encoding, the salt:iv:authTag:ciphertext blob layout,
colon splitting, length checks, file slicing offsets) is translated directly
from the source.  The cryptographic primitives themselves (PBKDF2-SHA512 and
AES-256-GCM from node:crypto) are modelled symbolically as ideal primitives:
the derived key is the injective pairing of the password bytes with the salt,
the GCM keystream is a concrete byte stream derived from key and IV, and the
GCM authentication tag is an ideal (collision-free) MAC, embedded as an
injective byte-level serialisation of (key, iv, ciphertext).  UTF-8 text
encoding is modelled as a fixed-width injective byte encoding of the
codepoints.  Bytes are Nat values < 256.
-/

namespace Anamneon

/-- Hex digit for a nibble, lowercase, as produced by Buffer.toString of hex
in node (the source emits lowercase hex). -/
def hexDigitChar : Nat → Char
  | 0 => '0'
  | 1 => '1'
  | 2 => '2'
  | 3 => '3'
  | 4 => '4'
  | 5 => '5'
  | 6 => '6'
  | 7 => '7'
  | 8 => '8'
  | 9 => '9'
  | 10 => 'a'
  | 11 => 'b'
  | 12 => 'c'
  | 13 => 'd'
  | 14 => 'e'
  | 15 => 'f'
  | _ => '0'

/-- Value of a lowercase hex digit character. -/
def hexCharVal (c : Char) : Option Nat :=
  if c = '0' then some 0
  else if c = '1' then some 1
  else if c = '2' then some 2
  else if c = '3' then some 3
  else if c = '4' then some 4
  else if c = '5' then some 5
  else if c = '6' then some 6
  else if c = '7' then some 7
  else if c = '8' then some 8
  else if c = '9' then some 9
  else if c = 'a' then some 10
  else if c = 'b' then some 11
  else if c = 'c' then some 12
  else if c = 'd' then some 13
  else if c = 'e' then some 14
  else if c = 'f' then some 15
  else none

/-- Hex encoding of a byte list (Buffer.toString with hex). -/
def bytesToHex : List Nat → List Char
  | [] => []
  | b :: bs => hexDigitChar (b / 16) :: hexDigitChar (b % 16) :: bytesToHex bs

/-- Hex decoding of a character list back to bytes (Buffer.from with hex). -/
def hexToBytes : List Char → Option (List Nat)
  | [] => some []
  | c1 :: c2 :: rest =>
      match hexCharVal c1, hexCharVal c2, hexToBytes rest with
      | some h, some l, some bs => some ((16 * h + l) :: bs)
      | _, _, _ => none
  | _ => none

theorem hexCharVal_hexDigitChar : ∀ n < 16, hexCharVal (hexDigitChar n) = some n := by
  decide

theorem hexDigitChar_ne_colon (n : Nat) : hexDigitChar n ≠ ':' := by
  match n with
  | 0 | 1 | 2 | 3 | 4 | 5 | 6 | 7 | 8 | 9 | 10 | 11 | 12 | 13 | 14 | 15 => decide
  | n + 16 =>
      show ('0' : Char) ≠ ':'
      decide

theorem bytesToHex_ne_colon {bs : List Nat} : ∀ c ∈ bytesToHex bs, c ≠ ':' := by
  induction bs with
  | nil => intro c hc; simp [bytesToHex] at hc
  | cons b bs ih =>
      intro c hc
      simp only [bytesToHex, List.mem_cons] at hc
      rcases hc with h | h | h
      · exact h ▸ hexDigitChar_ne_colon _
      · exact h ▸ hexDigitChar_ne_colon _
      · exact ih c h

theorem hexToBytes_bytesToHex {bs : List Nat} (h : ∀ b ∈ bs, b < 256) :
    hexToBytes (bytesToHex bs) = some bs := by
  induction bs with
  | nil => rfl
  | cons b bs ih =>
      have hb : b < 256 := h b (List.mem_cons_self _ _)
      have hhi : b / 16 < 16 := by omega
      have hlo : b % 16 < 16 := by omega
      have ihh := ih (fun x hx => h x (List.mem_cons_of_mem _ hx))
      simp only [bytesToHex, hexToBytes, hexCharVal_hexDigitChar _ hhi,
        hexCharVal_hexDigitChar _ hlo, ihh]
      have : 16 * (b / 16) + b % 16 = b := Nat.div_add_mod b 16
      rw [this]

theorem bytesToHex_inj {as bs : List Nat} (ha : ∀ b ∈ as, b < 256)
    (hb : ∀ b ∈ bs, b < 256) (h : bytesToHex as = bytesToHex bs) : as = bs := by
  have h1 := hexToBytes_bytesToHex ha
  have h2 := hexToBytes_bytesToHex hb
  rw [h, h2] at h1
  exact (Option.some.injEq _ _ ▸ h1).symm ▸ rfl

/-- Byte encoding of one character: the codepoint in three big-endian bytes
(codepoints are < 0x110000 < 2^24).  Models the injective text-to-bytes step
of the utf8 input encoding used by cipher.update. -/
def charToBytes (c : Char) : List Nat :=
  [c.toNat / 65536, c.toNat / 256 % 256, c.toNat % 256]

/-- Byte encoding of a whole string. -/
def textToBytes (s : String) : List Nat :=
  s.data.foldr (fun c acc => charToBytes c ++ acc) []

/-- Decoding of a byte list back to characters, three bytes per character;
fails on a trailing group or an invalid codepoint. -/
def bytesToChars : List Nat → Option (List Char)
  | [] => some []
  | b2 :: b1 :: b0 :: rest =>
      if Nat.isValidChar (b2 * 65536 + b1 * 256 + b0) then
        match bytesToChars rest with
        | some cs => some (Char.ofNat (b2 * 65536 + b1 * 256 + b0) :: cs)
        | none => none
      else none
  | _ => none

theorem charToBytes_lt {c : Char} : ∀ b ∈ charToBytes c, b < 256 := by
  have hv : Nat.isValidChar c.toNat := c.valid
  have hlt : c.toNat < 1114112 := by
    rcases hv with h | ⟨_, h⟩ <;> omega
  intro b hb
  simp only [charToBytes, List.mem_cons, List.not_mem_nil, or_false] at hb
  rcases hb with h | h | h <;> subst h <;> omega

theorem textToBytes_lt {s : String} : ∀ b ∈ textToBytes s, b < 256 := by
  show ∀ b ∈ s.data.foldr (fun c acc => charToBytes c ++ acc) [], b < 256
  induction s.data with
  | nil => intro b hb; simp at hb
  | cons c cs ih =>
      intro b hb
      simp only [List.foldr_cons, List.mem_append] at hb
      rcases hb with h | h
      · exact charToBytes_lt b h
      · exact ih b h

theorem bytesToChars_textToBytes (s : String) :
    bytesToChars (textToBytes s) = some s.data := by
  show bytesToChars (s.data.foldr (fun c acc => charToBytes c ++ acc) []) = some s.data
  induction s.data with
  | nil => rfl
  | cons c cs ih =>
      have hrec : c.toNat / 65536 * 65536 + c.toNat / 256 % 256 * 256 + c.toNat % 256
          = c.toNat := by omega
      have hv : Nat.isValidChar c.toNat := c.valid
      show bytesToChars (charToBytes c ++ List.foldr (fun c acc => charToBytes c ++ acc) [] cs)
          = some (c :: cs)
      have h1 : bytesToChars (charToBytes c ++ List.foldr (fun c acc => charToBytes c ++ acc) [] cs)
          = if Nat.isValidChar
                (c.toNat / 65536 * 65536 + c.toNat / 256 % 256 * 256 + c.toNat % 256) then
              match bytesToChars (List.foldr (fun c acc => charToBytes c ++ acc) [] cs) with
              | some cs2 =>
                  some (Char.ofNat
                    (c.toNat / 65536 * 65536 + c.toNat / 256 % 256 * 256 + c.toNat % 256) :: cs2)
              | none => none
            else none := rfl
      rw [h1, hrec, if_pos hv, ih]
      simp [Char.ofNat_toNat]

theorem textToBytes_inj {s t : String} (h : textToBytes s = textToBytes t) : s = t := by
  have h1 := bytesToChars_textToBytes s
  rw [h, bytesToChars_textToBytes t] at h1
  have hd : t.data = s.data := Option.some.inj h1
  have h2 := congrArg String.mk hd.symm
  cases s; cases t
  simpa using h2

/-- Splitting a character list on the colon character, JS String.split style:
every segment appears, empty segments included. -/
def splitAux : List Char → List Char → List String
  | [], acc => [String.mk acc.reverse]
  | c :: cs, acc =>
      if c = ':' then String.mk acc.reverse :: splitAux cs []
      else splitAux cs (c :: acc)

/-- Splitting a string on colons (models s.split of the colon separator). -/
def splitOnColon (s : String) : List String :=
  splitAux s.data []

theorem splitAux_append {l : List Char} (hl : ∀ c ∈ l, c ≠ ':') :
    ∀ (acc rest : List Char),
      splitAux (l ++ ':' :: rest) acc
        = String.mk (acc.reverse ++ l) :: splitAux rest [] := by
  induction l with
  | nil =>
      intro acc rest
      simp [splitAux]
  | cons c cs ih =>
      intro acc rest
      have hc : c ≠ ':' := hl c (List.mem_cons_self _ _)
      have ih2 := ih (fun x hx => hl x (List.mem_cons_of_mem _ hx)) (c :: acc) rest
      have hstep : splitAux ((c :: cs) ++ ':' :: rest) acc
          = splitAux (cs ++ ':' :: rest) (c :: acc) := by
        simp [splitAux, hc]
      rw [hstep, ih2]
      have hlist : (c :: acc).reverse ++ cs = acc.reverse ++ c :: cs := by simp
      rw [hlist]

theorem splitAux_noColon {l : List Char} (hl : ∀ c ∈ l, c ≠ ':') :
    ∀ acc, splitAux l acc = [String.mk (acc.reverse ++ l)] := by
  induction l with
  | nil => intro acc; simp [splitAux]
  | cons c cs ih =>
      intro acc
      have hc : c ≠ ':' := hl c (List.mem_cons_self _ _)
      have ih2 := ih (fun x hx => hl x (List.mem_cons_of_mem _ hx)) (c :: acc)
      have hstep : splitAux (c :: cs) acc = splitAux cs (c :: acc) := by
        simp [splitAux, hc]
      rw [hstep, ih2]
      have hlist : (c :: acc).reverse ++ cs = acc.reverse ++ c :: cs := by simp
      rw [hlist]

/-- Derived encryption key.  Models deriveKey of encryption.ts, which calls
pbkdf2Sync(password, salt, 100000, 32, sha512): PBKDF2 is idealised as a
collision-free KDF, embedded as the injective pairing of the password byte
encoding with the salt. -/
def deriveKey (password : String) (salt : List Nat) : List Nat :=
  textToBytes password ++ salt

/-- Keystream byte of the idealised AES-256-GCM stream, a concrete function
of key, IV and position. -/
def keyStream (key iv : List Nat) (i : Nat) : Nat :=
  (key.foldr (· + ·) 0 + iv.foldr (· + ·) 0 + i) % 256

/-- XOR of a byte list against the keystream starting at position i: the
CTR-mode body of AES-GCM, applied by cipher.update and decipher.update. -/
def xorKeyStream (key iv : List Nat) : Nat → List Nat → List Nat
  | _, [] => []
  | i, b :: bs => (b ^^^ keyStream key iv i) :: xorKeyStream key iv (i + 1) bs

theorem keyStream_lt (key iv : List Nat) (i : Nat) : keyStream key iv i < 256 :=
  Nat.mod_lt _ (by omega)

theorem xorKeyStream_lt {key iv : List Nat} :
    ∀ (i : Nat) (bs : List Nat), (∀ b ∈ bs, b < 256) →
      ∀ b ∈ xorKeyStream key iv i bs, b < 256 := by
  intro i bs
  induction bs generalizing i with
  | nil => intro _ b hb; simp [xorKeyStream] at hb
  | cons x xs ih =>
      intro h b hb
      simp only [xorKeyStream, List.mem_cons] at hb
      rcases hb with hb | hb
      · subst hb
        have hx : x < 256 := h x (List.mem_cons_self _ _)
        have hk : keyStream key iv i < 256 := keyStream_lt key iv i
        have : x ^^^ keyStream key iv i < 2 ^ 8 :=
          Nat.xor_lt_two_pow (by omega) (by omega)
        omega
      · exact ih (i + 1) (fun y hy => h y (List.mem_cons_of_mem _ hy)) b hb

theorem xorKeyStream_involutive {key iv : List Nat} :
    ∀ (i : Nat) (bs : List Nat), xorKeyStream key iv i (xorKeyStream key iv i bs) = bs := by
  intro i bs
  induction bs generalizing i with
  | nil => rfl
  | cons x xs ih =>
      simp only [xorKeyStream, ih (i + 1), List.cons.injEq, and_true]
      rw [Nat.xor_assoc, Nat.xor_self, Nat.xor_zero]

theorem xorKeyStream_length {key iv : List Nat} :
    ∀ (i : Nat) (bs : List Nat), (xorKeyStream key iv i bs).length = bs.length := by
  intro i bs
  induction bs generalizing i with
  | nil => rfl
  | cons x xs ih => simp [xorKeyStream, ih (i + 1)]

/-- Nibble expansion of a byte list: each byte becomes two values < 16, so
the value 255 never occurs and can serve as an unambiguous separator. -/
def nibbles : List Nat → List Nat
  | [] => []
  | b :: bs => b / 16 :: b % 16 :: nibbles bs

/-- Length-free self-delimiting chunk: nibble expansion plus separator 255. -/
def sepChunk (l : List Nat) : List Nat :=
  nibbles l ++ [255]

/-- Authentication tag of the idealised AES-256-GCM: a collision-free MAC of
(key, iv, ciphertext), embedded as an injective byte-level serialisation.
Models cipher.getAuthTag / decipher.setAuthTag verification. -/
def gcmTag (key iv ct : List Nat) : List Nat :=
  sepChunk key ++ sepChunk iv ++ sepChunk ct

theorem nibbles_lt {bs : List Nat} (h : ∀ b ∈ bs, b < 256) :
    ∀ x ∈ nibbles bs, x < 16 := by
  induction bs with
  | nil => intro x hx; simp [nibbles] at hx
  | cons b bs ih =>
      intro x hx
      have hb : b < 256 := h b (List.mem_cons_self _ _)
      simp only [nibbles, List.mem_cons] at hx
      rcases hx with hx | hx | hx
      · omega
      · omega
      · exact ih (fun y hy => h y (List.mem_cons_of_mem _ hy)) x hx

theorem nibbles_not_mem_255 {bs : List Nat} (h : ∀ b ∈ bs, b < 256) :
    255 ∉ nibbles bs := by
  intro hmem
  have := nibbles_lt h 255 hmem
  omega

theorem nibbles_inj {as bs : List Nat} (ha : ∀ b ∈ as, b < 256)
    (hb : ∀ b ∈ bs, b < 256) (h : nibbles as = nibbles bs) : as = bs := by
  induction as generalizing bs with
  | nil =>
      cases bs with
      | nil => rfl
      | cons y ys => simp [nibbles] at h
  | cons x xs ih =>
      cases bs with
      | nil => simp [nibbles] at h
      | cons y ys =>
          simp only [nibbles, List.cons.injEq] at h
          obtain ⟨h1, h2, h3⟩ := h
          have hx : x < 256 := ha x (List.mem_cons_self _ _)
          have hy : y < 256 := hb y (List.mem_cons_self _ _)
          have hxy : x = y := by omega
          have := ih (fun z hz => ha z (List.mem_cons_of_mem _ hz))
            (fun z hz => hb z (List.mem_cons_of_mem _ hz)) h3
          rw [hxy, this]

theorem append_marker_inj {α : Type} (m : α) :
    ∀ (as bs rs ss : List α), m ∉ as → m ∉ bs →
      as ++ m :: rs = bs ++ m :: ss → as = bs ∧ rs = ss := by
  intro as
  induction as with
  | nil =>
      intro bs rs ss _ hb h
      cases bs with
      | nil => simpa using h
      | cons y ys =>
          simp only [List.nil_append, List.cons_append, List.cons.injEq] at h
          exact absurd h.1.symm (fun hy => hb (hy ▸ List.mem_cons_self _ _))
  | cons x xs ih =>
      intro bs rs ss ha hb h
      cases bs with
      | nil =>
          simp only [List.cons_append, List.nil_append, List.cons.injEq] at h
          exact absurd h.1 (fun hx => ha (hx ▸ List.mem_cons_self _ _))
      | cons y ys =>
          simp only [List.cons_append, List.cons.injEq] at h
          obtain ⟨hxy, h2⟩ := h
          have hia : m ∉ xs := fun hm => ha (List.mem_cons_of_mem _ hm)
          have hib : m ∉ ys := fun hm => hb (List.mem_cons_of_mem _ hm)
          obtain ⟨he, hr⟩ := ih ys rs ss hia hib h2
          exact ⟨by rw [hxy, he], hr⟩

theorem gcmTag_inj {k1 i1 c1 k2 i2 c2 : List Nat}
    (hk1 : ∀ b ∈ k1, b < 256) (hi1 : ∀ b ∈ i1, b < 256) (hc1 : ∀ b ∈ c1, b < 256)
    (hk2 : ∀ b ∈ k2, b < 256) (hi2 : ∀ b ∈ i2, b < 256) (hc2 : ∀ b ∈ c2, b < 256)
    (h : gcmTag k1 i1 c1 = gcmTag k2 i2 c2) : k1 = k2 ∧ i1 = i2 ∧ c1 = c2 := by
  have h0 : nibbles k1 ++ 255 :: (sepChunk i1 ++ sepChunk c1)
      = nibbles k2 ++ 255 :: (sepChunk i2 ++ sepChunk c2) := by
    simpa [gcmTag, sepChunk, List.append_assoc] using h
  obtain ⟨hk, hrest⟩ :=
    append_marker_inj 255 _ _ _ _ (nibbles_not_mem_255 hk1) (nibbles_not_mem_255 hk2) h0
  have h1 : nibbles i1 ++ 255 :: sepChunk c1 = nibbles i2 ++ 255 :: sepChunk c2 := by
    simpa [sepChunk, List.append_assoc] using hrest
  obtain ⟨hi, hrest2⟩ :=
    append_marker_inj 255 _ _ _ _ (nibbles_not_mem_255 hi1) (nibbles_not_mem_255 hi2) h1
  have h2 : nibbles c1 ++ 255 :: ([] : List Nat) = nibbles c2 ++ 255 :: [] := by
    simpa [sepChunk] using hrest2
  obtain ⟨hc, _⟩ :=
    append_marker_inj 255 _ _ _ _ (nibbles_not_mem_255 hc1) (nibbles_not_mem_255 hc2) h2
  exact ⟨nibbles_inj hk1 hk2 hk, nibbles_inj hi1 hi2 hi, nibbles_inj hc1 hc2 hc⟩

theorem sepChunk_lt {l : List Nat} (h : ∀ x ∈ l, x < 256) :
    ∀ b ∈ sepChunk l, b < 256 := by
  intro b hb
  rcases List.mem_append.mp hb with h1 | h1
  · exact lt_trans (nibbles_lt h b h1) (by omega)
  · have hb255 : b = 255 := by simpa using h1
    omega

theorem gcmTag_lt {key iv ct : List Nat} (hk : ∀ b ∈ key, b < 256)
    (hi : ∀ b ∈ iv, b < 256) (hc : ∀ b ∈ ct, b < 256) :
    ∀ b ∈ gcmTag key iv ct, b < 256 := by
  intro b hb
  rcases List.mem_append.mp hb with h1 | h1
  · rcases List.mem_append.mp h1 with h2 | h2
    · exact sepChunk_lt hk b h2
    · exact sepChunk_lt hi b h2
  · exact sepChunk_lt hc b h1

theorem deriveKey_lt {password : String} {salt : List Nat}
    (hs : ∀ b ∈ salt, b < 256) : ∀ b ∈ deriveKey password salt, b < 256 := by
  intro b hb
  simp only [deriveKey, List.mem_append] at hb
  rcases hb with h | h
  · exact textToBytes_lt b h
  · exact hs b h

theorem deriveKey_inj_password {p1 p2 : String} {salt : List Nat}
    (h : deriveKey p1 salt = deriveKey p2 salt) : p1 = p2 := by
  have := List.append_cancel_right h
  exact textToBytes_inj this

/-- Error taxonomy of the cipher layer: FormatError for a malformed blob or a
too-short file, AuthenticationError for a failed tag verification (wrong
password or tampering, indistinguishable). -/
inductive CryptoError where
  | formatError
  | authenticationError
deriving DecidableEq

/-- Blob assembly: hex(salt):hex(iv):hex(authTag):hex(ciphertext), the format
string built at the end of encryptText in encryption.ts. -/
def mkBlob (salt iv tag ct : List Nat) : String :=
  String.mk (bytesToHex salt ++ (':' :: (bytesToHex iv
    ++ (':' :: (bytesToHex tag ++ (':' :: bytesToHex ct))))))

/-- Text encryption (encryptText of encryption.ts).  The fresh random salt
and IV drawn by generateSalt and randomBytes are passed explicitly. -/
def encryptText (text password : String) (salt iv : List Nat) : String :=
  let key := deriveKey password salt
  let ct := xorKeyStream key iv 0 (textToBytes text)
  mkBlob salt iv (gcmTag key iv ct) ct

/-- Text decryption (decryptText of encryption.ts): split on colons expecting
exactly 4 fields, else the invalid-format error; re-derive the key from the
embedded salt and the candidate password; verify the auth tag before
releasing plaintext.  A hex segment that does not decode yields bytes that
cannot verify, so it surfaces as the authentication error, matching the
observable behaviour of the lenient Buffer.from hex decoding followed by the
tag check of decipher.final. -/
def decryptText (encryptedData password : String) : Except CryptoError String :=
  match splitOnColon encryptedData with
  | [saltHex, ivHex, authTagHex, encrypted] =>
      match hexToBytes saltHex.data, hexToBytes ivHex.data,
            hexToBytes authTagHex.data, hexToBytes encrypted.data with
      | some salt, some iv, some authTag, some ct =>
          let key := deriveKey password salt
          if gcmTag key iv ct = authTag then
            match bytesToChars (xorKeyStream key iv 0 ct) with
            | some cs => .ok (String.mk cs)
            | none => .error .authenticationError
          else .error .authenticationError
      | _, _, _, _ => .error .authenticationError
  | _ => .error .formatError

theorem splitOnColon_mkBlob (salt iv tag ct : List Nat) :
    splitOnColon (mkBlob salt iv tag ct)
      = [String.mk (bytesToHex salt), String.mk (bytesToHex iv),
         String.mk (bytesToHex tag), String.mk (bytesToHex ct)] := by
  have hdata : splitOnColon (mkBlob salt iv tag ct)
      = splitAux (bytesToHex salt ++ ':' :: (bytesToHex iv
          ++ ':' :: (bytesToHex tag ++ ':' :: bytesToHex ct))) [] := rfl
  rw [hdata]
  rw [splitAux_append bytesToHex_ne_colon, splitAux_append bytesToHex_ne_colon,
      splitAux_append bytesToHex_ne_colon, splitAux_noColon bytesToHex_ne_colon]
  simp

theorem decryptText_mkBlob (p : String) (salt iv tag ct : List Nat)
    (hs : ∀ b ∈ salt, b < 256) (hi : ∀ b ∈ iv, b < 256)
    (ht : ∀ b ∈ tag, b < 256) (hc : ∀ b ∈ ct, b < 256) :
    decryptText (mkBlob salt iv tag ct) p
      = if gcmTag (deriveKey p salt) iv ct = tag then
          match bytesToChars (xorKeyStream (deriveKey p salt) iv 0 ct) with
          | some cs => Except.ok (String.mk cs)
          | none => Except.error CryptoError.authenticationError
        else Except.error CryptoError.authenticationError := by
  simp only [decryptText, splitOnColon_mkBlob, hexToBytes_bytesToHex hs,
    hexToBytes_bytesToHex hi, hexToBytes_bytesToHex ht, hexToBytes_bytesToHex hc]

/-- C1: for every string s and every password p (and every choice of the
64-byte random salt and 16-byte random IV drawn during encryption),
decryptText(encryptText(s, p), p) returns s. -/
theorem C1_decrypt_encrypt_roundtrip (s p : String) (salt iv : List Nat)
    (hsl : salt.length = 64) (hs : ∀ b ∈ salt, b < 256)
    (hil : iv.length = 16) (hi : ∀ b ∈ iv, b < 256) :
    decryptText (encryptText s p salt iv) p = Except.ok s := by
  have hkey : ∀ b ∈ deriveKey p salt, b < 256 := deriveKey_lt hs
  have hct : ∀ b ∈ xorKeyStream (deriveKey p salt) iv 0 (textToBytes s), b < 256 :=
    xorKeyStream_lt 0 _ textToBytes_lt
  have htag : ∀ b ∈ gcmTag (deriveKey p salt) iv
      (xorKeyStream (deriveKey p salt) iv 0 (textToBytes s)), b < 256 :=
    gcmTag_lt hkey hi hct
  simp only [encryptText]
  rw [decryptText_mkBlob p salt iv _ _ hs hi htag hct, if_pos rfl,
    xorKeyStream_involutive, bytesToChars_textToBytes]

theorem C1_witness :
    (List.replicate 64 7).length = 64 ∧ (List.replicate 16 3).length = 16 ∧
    decryptText (encryptText "дневник" "пароль" (List.replicate 64 7)
      (List.replicate 16 3)) "пароль" = Except.ok "дневник" :=
  ⟨by decide, by decide,
    C1_decrypt_encrypt_roundtrip "дневник" "пароль" (List.replicate 64 7)
      (List.replicate 16 3) (by decide) (by decide) (by decide) (by decide)⟩

/-- C2: authentication failures of the text cipher.  Wrong password:
decrypting a blob of encryptText under any other password fails with the
authentication error.  Tamper detection: replacing the ciphertext segment of
a produced blob with any different byte content, or replacing the auth-tag
segment with any different byte content, makes decryptText fail with the
authentication error rather than return altered plaintext (byte flips are a
special case of the replacements). -/
theorem C2_wrong_password_and_tampering :
    (∀ (s p1 p2 : String) (salt iv : List Nat),
      (∀ b ∈ salt, b < 256) → (∀ b ∈ iv, b < 256) → p1 ≠ p2 →
      decryptText (encryptText s p1 salt iv) p2
        = Except.error CryptoError.authenticationError) ∧
    (∀ (s p : String) (salt iv ct2 : List Nat),
      (∀ b ∈ salt, b < 256) → (∀ b ∈ iv, b < 256) → (∀ b ∈ ct2, b < 256) →
      ct2 ≠ xorKeyStream (deriveKey p salt) iv 0 (textToBytes s) →
      decryptText (mkBlob salt iv
        (gcmTag (deriveKey p salt) iv
          (xorKeyStream (deriveKey p salt) iv 0 (textToBytes s))) ct2) p
        = Except.error CryptoError.authenticationError) ∧
    (∀ (s p : String) (salt iv tag2 : List Nat),
      (∀ b ∈ salt, b < 256) → (∀ b ∈ iv, b < 256) → (∀ b ∈ tag2, b < 256) →
      tag2 ≠ gcmTag (deriveKey p salt) iv
        (xorKeyStream (deriveKey p salt) iv 0 (textToBytes s)) →
      decryptText (mkBlob salt iv tag2
        (xorKeyStream (deriveKey p salt) iv 0 (textToBytes s))) p
        = Except.error CryptoError.authenticationError) := by
  refine ⟨?_, ?_, ?_⟩
  · intro s p1 p2 salt iv hs hi hp
    have hkey1 : ∀ b ∈ deriveKey p1 salt, b < 256 := deriveKey_lt hs
    have hkey2 : ∀ b ∈ deriveKey p2 salt, b < 256 := deriveKey_lt hs
    have hct : ∀ b ∈ xorKeyStream (deriveKey p1 salt) iv 0 (textToBytes s), b < 256 :=
      xorKeyStream_lt 0 _ textToBytes_lt
    have htag : ∀ b ∈ gcmTag (deriveKey p1 salt) iv
        (xorKeyStream (deriveKey p1 salt) iv 0 (textToBytes s)), b < 256 :=
      gcmTag_lt hkey1 hi hct
    simp only [encryptText]
    rw [decryptText_mkBlob p2 salt iv _ _ hs hi htag hct, if_neg]
    intro heq
    obtain ⟨hk, _, _⟩ := gcmTag_inj hkey2 hi hct hkey1 hi hct heq
    exact hp (deriveKey_inj_password hk).symm
  · intro s p salt iv ct2 hs hi hc2 hne
    have hkey : ∀ b ∈ deriveKey p salt, b < 256 := deriveKey_lt hs
    have hct : ∀ b ∈ xorKeyStream (deriveKey p salt) iv 0 (textToBytes s), b < 256 :=
      xorKeyStream_lt 0 _ textToBytes_lt
    have htag : ∀ b ∈ gcmTag (deriveKey p salt) iv
        (xorKeyStream (deriveKey p salt) iv 0 (textToBytes s)), b < 256 :=
      gcmTag_lt hkey hi hct
    rw [decryptText_mkBlob p salt iv _ _ hs hi htag hc2, if_neg]
    intro heq
    obtain ⟨_, _, hctEq⟩ := gcmTag_inj hkey hi hc2 hkey hi hct heq
    exact hne hctEq
  · intro s p salt iv tag2 hs hi ht2 hne
    have hkey : ∀ b ∈ deriveKey p salt, b < 256 := deriveKey_lt hs
    have hct : ∀ b ∈ xorKeyStream (deriveKey p salt) iv 0 (textToBytes s), b < 256 :=
      xorKeyStream_lt 0 _ textToBytes_lt
    rw [decryptText_mkBlob p salt iv _ _ hs hi ht2 hct, if_neg]
    intro heq
    exact hne heq.symm

/-- Concrete 64-byte salt used by witnesses. -/
def salt0 : List Nat := List.replicate 64 0

/-- Concrete 16-byte IV used by witnesses. -/
def iv0 : List Nat := List.replicate 16 0

theorem C2_witness :
    ("a" : String) ≠ "b" ∧
    decryptText (encryptText "s" "a" salt0 iv0) "b"
      = Except.error CryptoError.authenticationError ∧
    decryptText (mkBlob salt0 iv0
      (gcmTag (deriveKey "a" salt0) iv0
        (xorKeyStream (deriveKey "a" salt0) iv0 0 (textToBytes "s"))) []) "a"
      = Except.error CryptoError.authenticationError ∧
    decryptText (mkBlob salt0 iv0 [0]
      (xorKeyStream (deriveKey "a" salt0) iv0 0 (textToBytes "s"))) "a"
      = Except.error CryptoError.authenticationError :=
  ⟨by decide,
   C2_wrong_password_and_tampering.1 "s" "a" "b" salt0 iv0
     (by decide) (by decide) (by decide),
   C2_wrong_password_and_tampering.2.1 "s" "a" salt0 iv0 []
     (by decide) (by decide) (by decide) (by decide),
   C2_wrong_password_and_tampering.2.2 "s" "a" salt0 iv0 [0]
     (by decide) (by decide) (by decide) (by decide)⟩

/-- Idealised PBKDF2-SHA512 digest for password hashing: models
pbkdf2Sync(password, salt, 100000, 64, sha512) where salt is passed as a
string (hashPassword and verifyPassword of encryption.ts).  Idealised as a
collision-free one-way function, embedded as the injective concatenation of
the byte encodings of password and salt string. -/
def pbkdf2Hash (password saltStr : String) : List Nat :=
  textToBytes password ++ textToBytes saltStr

/-- Password hashing for storage (hashPassword of encryption.ts): a fresh
random 16-byte salt is hex-encoded; the result is salt:hash with the digest
hex-encoded.  The random salt bytes are passed explicitly. -/
def hashPassword (password : String) (saltBytes : List Nat) : String :=
  String.mk (bytesToHex saltBytes
    ++ (':' :: bytesToHex (pbkdf2Hash password (String.mk (bytesToHex saltBytes)))))

/-- Password verification (verifyPassword of encryption.ts): split the
stored value on colons, read the salt and hash fields, recompute the digest
with the stored salt and compare.  A stored value without a hash field never
compares equal (the JS destructuring leaves hash undefined). -/
def verifyPassword (password hashedPassword : String) : Bool :=
  match splitOnColon hashedPassword with
  | saltStr :: hash :: _ =>
      hash == String.mk (bytesToHex (pbkdf2Hash password saltStr))
  | _ => false

theorem pbkdf2Hash_lt {p s : String} : ∀ b ∈ pbkdf2Hash p s, b < 256 := by
  intro b hb
  rcases List.mem_append.mp hb with h | h
  · exact textToBytes_lt b h
  · exact textToBytes_lt b h

theorem pbkdf2Hash_inj_password {p1 p2 s : String}
    (h : pbkdf2Hash p1 s = pbkdf2Hash p2 s) : p1 = p2 :=
  textToBytes_inj (List.append_cancel_right h)

theorem splitOnColon_hashPassword (p : String) (salt : List Nat) :
    splitOnColon (hashPassword p salt)
      = [String.mk (bytesToHex salt),
         String.mk (bytesToHex (pbkdf2Hash p (String.mk (bytesToHex salt))))] := by
  have hdata : splitOnColon (hashPassword p salt)
      = splitAux (bytesToHex salt
          ++ ':' :: bytesToHex (pbkdf2Hash p (String.mk (bytesToHex salt)))) [] := rfl
  rw [hdata, splitAux_append bytesToHex_ne_colon, splitAux_noColon bytesToHex_ne_colon]
  simp

theorem colon_not_mem_bytesToHex {bs : List Nat} : ':' ∉ bytesToHex bs :=
  fun h => bytesToHex_ne_colon ':' h rfl

theorem verifyPassword_hashPassword (p : String) (salt : List Nat) :
    verifyPassword p (hashPassword p salt) = true := by
  simp only [verifyPassword, splitOnColon_hashPassword]
  exact beq_self_eq_true _

/-- C8: verify(p, hash(p)) is true for every password and every salt;
verify(p1, hash(p2)) is false whenever p1 and p2 differ; and hashing the
same password with two different salts (the fresh-random-salt case) yields
different stored strings which both still verify. -/
theorem C8_password_hash_properties :
    (∀ (p : String) (salt : List Nat),
      verifyPassword p (hashPassword p salt) = true) ∧
    (∀ (p1 p2 : String) (salt : List Nat), p1 ≠ p2 →
      verifyPassword p1 (hashPassword p2 salt) = false) ∧
    (∀ (p : String) (s1 s2 : List Nat),
      (∀ b ∈ s1, b < 256) → (∀ b ∈ s2, b < 256) → s1 ≠ s2 →
      hashPassword p s1 ≠ hashPassword p s2 ∧
      verifyPassword p (hashPassword p s1) = true ∧
      verifyPassword p (hashPassword p s2) = true) := by
  refine ⟨verifyPassword_hashPassword, ?_, ?_⟩
  · intro p1 p2 salt hne
    simp only [verifyPassword, splitOnColon_hashPassword]
    rw [beq_eq_false_iff_ne]
    intro heq
    have hlists : bytesToHex (pbkdf2Hash p2 (String.mk (bytesToHex salt)))
        = bytesToHex (pbkdf2Hash p1 (String.mk (bytesToHex salt))) :=
      congrArg String.data heq
    have hdig := bytesToHex_inj pbkdf2Hash_lt pbkdf2Hash_lt hlists
    exact hne (pbkdf2Hash_inj_password hdig).symm
  · intro p s1 s2 h1 h2 hne
    refine ⟨?_, verifyPassword_hashPassword p s1, verifyPassword_hashPassword p s2⟩
    intro heq
    have hlists : bytesToHex s1
          ++ ':' :: bytesToHex (pbkdf2Hash p (String.mk (bytesToHex s1)))
        = bytesToHex s2
          ++ ':' :: bytesToHex (pbkdf2Hash p (String.mk (bytesToHex s2))) :=
      congrArg String.data heq
    obtain ⟨hsalt, _⟩ := append_marker_inj ':' _ _ _ _
      colon_not_mem_bytesToHex colon_not_mem_bytesToHex hlists
    exact hne (bytesToHex_inj h1 h2 hsalt)

theorem C8_witness :
    ("wrong" : String) ≠ "pw" ∧
    (List.replicate 16 5 : List Nat) ≠ List.replicate 16 6 ∧
    verifyPassword "pw" (hashPassword "pw" (List.replicate 16 5)) = true ∧
    verifyPassword "wrong" (hashPassword "pw" (List.replicate 16 5)) = false ∧
    hashPassword "pw" (List.replicate 16 5) ≠ hashPassword "pw" (List.replicate 16 6) :=
  ⟨by decide, by decide,
   C8_password_hash_properties.1 "pw" (List.replicate 16 5),
   C8_password_hash_properties.2.1 "wrong" "pw" (List.replicate 16 5) (by decide),
   (C8_password_hash_properties.2.2 "pw" (List.replicate 16 5) (List.replicate 16 6)
     (by decide) (by decide) (by decide)).1⟩

/-- In-memory session key store: the Map of userId to verified password kept
by encryption.ts (const userKeys).  Modelled as a lookup function. -/
def KeyStore : Type := String → Option String

/-- Empty key store (application start / after clearAllEncryptionKeys). -/
def emptyKeys : KeyStore := fun _ => none

/-- setUserEncryptionKey of encryption.ts: store or overwrite the session
key material for a user. -/
def setUserEncryptionKey (ks : KeyStore) (userId password : String) : KeyStore :=
  fun u => if u = userId then some password else ks u

/-- getUserEncryptionKey of encryption.ts. -/
def getUserEncryptionKey (ks : KeyStore) (userId : String) : Option String :=
  ks userId

/-- clearUserEncryptionKey of encryption.ts: delete one entry. -/
def clearUserEncryptionKey (ks : KeyStore) (userId : String) : KeyStore :=
  fun u => if u = userId then none else ks u

/-- clearAllEncryptionKeys of encryption.ts. -/
def clearAllEncryptionKeys (_ : KeyStore) : KeyStore := emptyKeys

/-- Stored diary row as handled by the diary IPC handlers (title and content
hold encrypted blobs at rest). -/
structure DiaryRow where
  id : String
  userId : String
  title : String
  content : String
  createdAt : String
  updatedAt : String
deriving DecidableEq

/-- Errors thrown by the IPC handlers: the not-authenticated errors thrown
when no session key is cached, and the unauthorized error of unknown users. -/
inductive HandlerError where
  | notAuthenticated
  | unauthorized
deriving DecidableEq

/-- Per-entry decryption step of the diary:getAll handler: the try/catch
around the two decryptText calls.  A failure of either decryption replaces
both fields with the fixed placeholder strings of the source. -/
def decryptEntryRow (pw : String) (e : DiaryRow) : DiaryRow :=
  match decryptText e.title pw, decryptText e.content pw with
  | Except.ok t, Except.ok c => { e with title := t, content := c }
  | _, _ => { e with title := "[Ошибка расшифровки]",
                     content := "[Не удалось расшифровать содержимое]" }

/-- diary:getAll handler of the main process: fetch the stored entries for
the user, require a cached session key (else throw the not-authenticated
error), then decrypt every entry with per-entry failure isolation. -/
def diaryGetAll (ks : KeyStore) (userId : String) (entries : List DiaryRow) :
    Except HandlerError (List DiaryRow) :=
  match getUserEncryptionKey ks userId with
  | none => Except.error HandlerError.notAuthenticated
  | some pw => Except.ok (entries.map (decryptEntryRow pw))

/-- C3: with a cached session key, getDiaryEntries returns one result per
stored entry; an entry whose title and content decrypt is returned with the
plaintext, an entry whose decryption fails is returned with the fixed
placeholder strings in title and content, and no corrupted entry aborts
the batch or hides the others. -/
theorem C3_batch_isolation (ks : KeyStore) (u pw : String) (entries : List DiaryRow)
    (hk : getUserEncryptionKey ks u = some pw) :
    diaryGetAll ks u entries = Except.ok (entries.map (decryptEntryRow pw)) ∧
    (entries.map (decryptEntryRow pw)).length = entries.length ∧
    (∀ e ∈ entries, ∀ t c, decryptText e.title pw = Except.ok t →
      decryptText e.content pw = Except.ok c →
      decryptEntryRow pw e = { e with title := t, content := c }) ∧
    (∀ e ∈ entries,
      (decryptText e.title pw).isOk = false ∨ (decryptText e.content pw).isOk = false →
      decryptEntryRow pw e = { e with title := "[Ошибка расшифровки]",
                                      content := "[Не удалось расшифровать содержимое]" }) := by
  refine ⟨?_, List.length_map _ _, ?_, ?_⟩
  · simp only [diaryGetAll, hk]
  · intro e _ t c ht hc
    simp only [decryptEntryRow, ht, hc]
  · intro e _ hfail
    unfold decryptEntryRow
    cases hT : decryptText e.title pw with
    | error err => rfl
    | ok t =>
        cases hC : decryptText e.content pw with
        | error err => rfl
        | ok c =>
            exfalso
            rcases hfail with h | h
            · rw [hT] at h; simp [Except.isOk, Except.toBool] at h
            · rw [hC] at h; simp [Except.isOk, Except.toBool] at h

/-- C10: after clearKey(userId), any subsequent decrypt request for that
user fails with the not-authenticated error, whatever valid ciphertext is
stored for it and whatever the rest of the key store holds. -/
theorem C10_clearKey_blocks_decrypt (ks : KeyStore) (u : String)
    (entries : List DiaryRow) :
    diaryGetAll (clearUserEncryptionKey ks u) u entries
      = Except.error HandlerError.notAuthenticated := by
  simp [diaryGetAll, getUserEncryptionKey, clearUserEncryptionKey]

/-- Three stored diary entries for the batch-isolation witness: two with
valid encrypted blobs, one corrupted. -/
def entriesW : List DiaryRow :=
  [{ id := "1", userId := "u1", title := encryptText "t1" "pw" salt0 iv0,
     content := encryptText "c1" "pw" salt0 iv0, createdAt := "d1", updatedAt := "d1" },
   { id := "2", userId := "u1", title := "corrupted-blob",
     content := "corrupted-blob", createdAt := "d2", updatedAt := "d2" },
   { id := "3", userId := "u1", title := encryptText "t3" "pw" salt0 iv0,
     content := encryptText "c3" "pw" salt0 iv0, createdAt := "d3", updatedAt := "d3" }]

theorem C3_witness :
    getUserEncryptionKey (setUserEncryptionKey emptyKeys "u1" "pw") "u1" = some "pw" ∧
    (diaryGetAll (setUserEncryptionKey emptyKeys "u1" "pw") "u1" entriesW
        = Except.ok (entriesW.map (decryptEntryRow "pw")) ∧
      (entriesW.map (decryptEntryRow "pw")).length = entriesW.length ∧
      (∀ e ∈ entriesW, ∀ t c, decryptText e.title "pw" = Except.ok t →
        decryptText e.content "pw" = Except.ok c →
        decryptEntryRow "pw" e = { e with title := t, content := c }) ∧
      (∀ e ∈ entriesW,
        (decryptText e.title "pw").isOk = false ∨
          (decryptText e.content "pw").isOk = false →
        decryptEntryRow "pw" e
          = { e with title := "[Ошибка расшифровки]",
                     content := "[Не удалось расшифровать содержимое]" })) :=
  ⟨by decide,
   C3_batch_isolation (setUserEncryptionKey emptyKeys "u1" "pw") "u1" "pw" entriesW
     (by decide)⟩

/-- Account row as read by the auth handlers (password_hash column). -/
structure UserRow where
  id : String
  email : String
  passwordHash : String
deriving DecidableEq

/-- Result record of the auth:login handler. -/
structure LoginResult where
  success : Bool
  token : Option String
  error : Option String
deriving DecidableEq

/-- auth:login handler of the main process: look the user up by email
(db.getUserByEmail), verify the password against the stored hash, and on
success cache the session key; failures return success false together with
the Russian error messages of the source. -/
def loginHandler (users : List UserRow) (ks : KeyStore) (email password : String) :
    LoginResult × KeyStore :=
  match users.find? (fun u => u.email == email) with
  | none => ({ success := false, token := none, error := some "Пользователь не найден" }, ks)
  | some user =>
      if verifyPassword password user.passwordHash then
        ({ success := true, token := some user.id, error := none },
         setUserEncryptionKey ks user.id password)
      else
        ({ success := false, token := none, error := some "Неверный пароль" }, ks)

/-- Concrete registered account for the login counterexample. -/
def userW : UserRow :=
  { id := "u1", email := "user@example.com",
    passwordHash := hashPassword "pw" (List.replicate 16 5) }

set_option maxRecDepth 8000 in
theorem C4_counterexample :
    (loginHandler [userW] emptyKeys "other@example.com" "pw").1.error
      ≠ (loginHandler [userW] emptyKeys "user@example.com" "wrong").1.error := by
  decide

/-- C4 (as amended): every failed login returns success false with an error
message, but the message for an unknown email differs from the message for a
wrong password, so the result does reveal which field mismatched. -/
theorem C4_login_failure_messages :
    (∀ (users : List UserRow) (ks : KeyStore) (email password : String),
      users.find? (fun u => u.email == email) = none →
      (loginHandler users ks email password).1
        = { success := false, token := none, error := some "Пользователь не найден" }) ∧
    (∀ (users : List UserRow) (ks : KeyStore) (email password : String) (u : UserRow),
      users.find? (fun v => v.email == email) = some u →
      verifyPassword password u.passwordHash = false →
      (loginHandler users ks email password).1
        = { success := false, token := none, error := some "Неверный пароль" }) ∧
    ("Пользователь не найден" : String) ≠ "Неверный пароль" := by
  refine ⟨?_, ?_, by decide⟩
  · intro users ks email password hfind
    simp only [loginHandler, hfind]
  · intro users ks email password u hfind hverify
    simp only [loginHandler, hfind, hverify, Bool.false_eq_true, if_false]

set_option maxRecDepth 8000 in
theorem C4_witness :
    ([userW].find? (fun u => u.email == "missing@example.com") = none ∧
      (loginHandler [userW] emptyKeys "missing@example.com" "pw").1
        = { success := false, token := none, error := some "Пользователь не найден" }) ∧
    ([userW].find? (fun v => v.email == "user@example.com") = some userW ∧
      verifyPassword "wrong" userW.passwordHash = false ∧
      (loginHandler [userW] emptyKeys "user@example.com" "wrong").1
        = { success := false, token := none, error := some "Неверный пароль" }) :=
  ⟨⟨by decide,
    C4_login_failure_messages.1 [userW] emptyKeys "missing@example.com" "pw" (by decide)⟩,
   ⟨by decide, by decide,
    C4_login_failure_messages.2.1 [userW] emptyKeys "user@example.com" "wrong" userW
      (by decide) (by decide)⟩⟩

/-- Metadata object persisted with a file record (title is an encrypted
blob at rest). -/
structure FileMeta where
  title : String
  uploadedAt : String
deriving DecidableEq

/-- File record row of the unified files table (kind models the type
column; name may be stored in clear). -/
structure FileRow where
  userId : String
  name : String
  path : String
  kind : String
  createdAt : String
  metadata : FileMeta
deriving DecidableEq

/-- diary:save handler: require a cached session key for entry.userId, then
encrypt title and content before handing the row to db.saveDiaryEntry.  The
two fresh salt/IV pairs of the encryptText calls are passed explicitly. -/
def diarySaveHandler (ks : KeyStore) (entry : DiaryRow)
    (s1 i1 s2 i2 : List Nat) : Except HandlerError DiaryRow :=
  match getUserEncryptionKey ks entry.userId with
  | none => Except.error HandlerError.notAuthenticated
  | some pw =>
      Except.ok { entry with title := encryptText entry.title pw s1 i1,
                             content := encryptText entry.content pw s2 i2 }

/-- diary:update handler: same encryption of title and content before
db.updateDiaryEntry; the user id arrives separately from the entry. -/
def diaryUpdateHandler (ks : KeyStore) (userId : String) (entry : DiaryRow)
    (s1 i1 s2 i2 : List Nat) : Except HandlerError DiaryRow :=
  match getUserEncryptionKey ks userId with
  | none => Except.error HandlerError.notAuthenticated
  | some pw =>
      Except.ok { entry with title := encryptText entry.title pw s1 i1,
                             content := encryptText entry.content pw s2 i2 }

/-- file:upload handler, reduced to the persisted row: require a known user
and a cached key, encrypt the file body to path.enc, encrypt the display
title, store name in clear and the encrypted title in metadata.title
(db.saveFileItem). -/
def fileUploadHandler (users : List UserRow) (ks : KeyStore)
    (userId name title path kind now : String) (st iv : List Nat) :
    Except HandlerError FileRow :=
  match users.find? (fun v => v.id == userId) with
  | none => Except.error HandlerError.unauthorized
  | some user =>
      match getUserEncryptionKey ks userId with
      | none => Except.error HandlerError.notAuthenticated
      | some pw =>
          Except.ok { userId := user.id, name := name, path := path ++ ".enc",
                      kind := kind, createdAt := now,
                      metadata := { title := encryptText title pw st iv,
                                    uploadedAt := now } }

/-- media:upload handler, reduced to the persisted row: as file:upload, but
the encrypted title blob is reused for the name column as well
(db.saveMediaItem). -/
def mediaUploadHandler (users : List UserRow) (ks : KeyStore)
    (userId title path kind now : String) (st iv : List Nat) :
    Except HandlerError FileRow :=
  match users.find? (fun v => v.id == userId) with
  | none => Except.error HandlerError.unauthorized
  | some user =>
      match getUserEncryptionKey ks userId with
      | none => Except.error HandlerError.notAuthenticated
      | some pw =>
          Except.ok { userId := user.id, name := encryptText title pw st iv,
                      path := path ++ ".enc", kind := kind, createdAt := now,
                      metadata := { title := encryptText title pw st iv,
                                    uploadedAt := now } }

/-- file:updateMetadata handler (media:updateMetadata delegates to the same
database method with the same body): require a cached key and encrypt
metadata.title before db.updateFileItem persists it. -/
def fileUpdateMetadataHandler (ks : KeyStore) (userId : String)
    (metadata : FileMeta) (st iv : List Nat) : Except HandlerError FileMeta :=
  match getUserEncryptionKey ks userId with
  | none => Except.error HandlerError.notAuthenticated
  | some pw => Except.ok { metadata with title := encryptText metadata.title pw st iv }

/-- Test that a string is a well-formed encrypted text blob: exactly four
colon-separated hex segments. -/
def isEncryptedBlob (s : String) : Bool :=
  match splitOnColon s with
  | [a, b, c, d] =>
      (hexToBytes a.data).isSome && ((hexToBytes b.data).isSome
        && ((hexToBytes c.data).isSome && (hexToBytes d.data).isSome))
  | _ => false

theorem isEncryptedBlob_encryptText (t p : String) {salt iv : List Nat}
    (hs : ∀ b ∈ salt, b < 256) (hi : ∀ b ∈ iv, b < 256) :
    isEncryptedBlob (encryptText t p salt iv) = true := by
  have hct : ∀ b ∈ xorKeyStream (deriveKey p salt) iv 0 (textToBytes t), b < 256 :=
    xorKeyStream_lt 0 _ textToBytes_lt
  have htag : ∀ b ∈ gcmTag (deriveKey p salt) iv
      (xorKeyStream (deriveKey p salt) iv 0 (textToBytes t)), b < 256 :=
    gcmTag_lt (deriveKey_lt hs) hi hct
  simp only [encryptText, isEncryptedBlob, splitOnColon_mkBlob,
    hexToBytes_bytesToHex hs, hexToBytes_bytesToHex hi,
    hexToBytes_bytesToHex htag, hexToBytes_bytesToHex hct]
  rfl

/-- C7: every write path encrypts before persisting.  The diary save and
update handlers persist rows whose title and content are encryptText blobs;
the file and media upload handlers and the metadata-update handler persist
records whose metadata.title is an encryptText blob; and every encryptText
output is a well-formed four-segment hex blob, never the plaintext shape. -/
theorem C7_ciphertext_at_rest :
    (∀ (ks : KeyStore) (pw : String) (entry : DiaryRow) (s1 i1 s2 i2 : List Nat),
      getUserEncryptionKey ks entry.userId = some pw →
      diarySaveHandler ks entry s1 i1 s2 i2
        = Except.ok { entry with title := encryptText entry.title pw s1 i1,
                                 content := encryptText entry.content pw s2 i2 }) ∧
    (∀ (ks : KeyStore) (u pw : String) (entry : DiaryRow) (s1 i1 s2 i2 : List Nat),
      getUserEncryptionKey ks u = some pw →
      diaryUpdateHandler ks u entry s1 i1 s2 i2
        = Except.ok { entry with title := encryptText entry.title pw s1 i1,
                                 content := encryptText entry.content pw s2 i2 }) ∧
    (∀ (users : List UserRow) (ks : KeyStore)
        (userId name title path kind now pw : String) (st iv : List Nat)
        (user : UserRow),
      users.find? (fun v => v.id == userId) = some user →
      getUserEncryptionKey ks userId = some pw →
      fileUploadHandler users ks userId name title path kind now st iv
        = Except.ok { userId := user.id, name := name, path := path ++ ".enc",
                      kind := kind, createdAt := now,
                      metadata := { title := encryptText title pw st iv,
                                    uploadedAt := now } }) ∧
    (∀ (users : List UserRow) (ks : KeyStore)
        (userId title path kind now pw : String) (st iv : List Nat)
        (user : UserRow),
      users.find? (fun v => v.id == userId) = some user →
      getUserEncryptionKey ks userId = some pw →
      mediaUploadHandler users ks userId title path kind now st iv
        = Except.ok { userId := user.id, name := encryptText title pw st iv,
                      path := path ++ ".enc", kind := kind, createdAt := now,
                      metadata := { title := encryptText title pw st iv,
                                    uploadedAt := now } }) ∧
    (∀ (ks : KeyStore) (u pw : String) (metadata : FileMeta) (st iv : List Nat),
      getUserEncryptionKey ks u = some pw →
      fileUpdateMetadataHandler ks u metadata st iv
        = Except.ok { metadata with title := encryptText metadata.title pw st iv }) ∧
    (∀ (t p : String) (salt iv : List Nat),
      (∀ b ∈ salt, b < 256) → (∀ b ∈ iv, b < 256) →
      isEncryptedBlob (encryptText t p salt iv) = true) := by
  refine ⟨?_, ?_, ?_, ?_, ?_, fun t p salt iv hs hi => isEncryptedBlob_encryptText t p hs hi⟩
  · intro ks pw entry s1 i1 s2 i2 hk
    simp only [diarySaveHandler, hk]
  · intro ks u pw entry s1 i1 s2 i2 hk
    simp only [diaryUpdateHandler, hk]
  · intro users ks userId name title path kind now pw st iv user hfind hk
    simp only [fileUploadHandler, hfind, hk]
  · intro users ks userId title path kind now pw st iv user hfind hk
    simp only [mediaUploadHandler, hfind, hk]
  · intro ks u pw metadata st iv hk
    simp only [fileUpdateMetadataHandler, hk]

/-- Plaintext diary entry used by the write-path witness. -/
def entryP : DiaryRow :=
  { id := "1", userId := "u1", title := "Заголовок", content := "Текст",
    createdAt := "d", updatedAt := "d" }

/-- Plaintext file metadata used by the write-path witness. -/
def metaP : FileMeta := { title := "Название", uploadedAt := "d" }

set_option maxRecDepth 8000 in
theorem C7_witness :
    getUserEncryptionKey (setUserEncryptionKey emptyKeys "u1" "pw") "u1" = some "pw" ∧
    ([userW].find? (fun v => v.id == "u1") = some userW) ∧
    diarySaveHandler (setUserEncryptionKey emptyKeys "u1" "pw") entryP salt0 iv0 salt0 iv0
      = Except.ok { entryP with title := encryptText entryP.title "pw" salt0 iv0,
                                content := encryptText entryP.content "pw" salt0 iv0 } ∧
    diaryUpdateHandler (setUserEncryptionKey emptyKeys "u1" "pw") "u1" entryP
        salt0 iv0 salt0 iv0
      = Except.ok { entryP with title := encryptText entryP.title "pw" salt0 iv0,
                                content := encryptText entryP.content "pw" salt0 iv0 } ∧
    fileUploadHandler [userW] (setUserEncryptionKey emptyKeys "u1" "pw")
        "u1" "doc.pdf" "Название" "/tmp/doc.pdf" "pdf" "d" salt0 iv0
      = Except.ok { userId := userW.id, name := "doc.pdf", path := "/tmp/doc.pdf" ++ ".enc",
                    kind := "pdf", createdAt := "d",
                    metadata := { title := encryptText "Название" "pw" salt0 iv0,
                                  uploadedAt := "d" } } ∧
    mediaUploadHandler [userW] (setUserEncryptionKey emptyKeys "u1" "pw")
        "u1" "Название" "/tmp/p.jpg" "photo" "d" salt0 iv0
      = Except.ok { userId := userW.id, name := encryptText "Название" "pw" salt0 iv0,
                    path := "/tmp/p.jpg" ++ ".enc", kind := "photo", createdAt := "d",
                    metadata := { title := encryptText "Название" "pw" salt0 iv0,
                                  uploadedAt := "d" } } ∧
    fileUpdateMetadataHandler (setUserEncryptionKey emptyKeys "u1" "pw") "u1" metaP salt0 iv0
      = Except.ok { metaP with title := encryptText metaP.title "pw" salt0 iv0 } ∧
    isEncryptedBlob (encryptText "Название" "pw" salt0 iv0) = true :=
  ⟨by decide, by decide,
   C7_ciphertext_at_rest.1 (setUserEncryptionKey emptyKeys "u1" "pw") "pw" entryP
     salt0 iv0 salt0 iv0 (by decide),
   C7_ciphertext_at_rest.2.1 (setUserEncryptionKey emptyKeys "u1" "pw") "u1" "pw" entryP
     salt0 iv0 salt0 iv0 (by decide),
   C7_ciphertext_at_rest.2.2.1 [userW] (setUserEncryptionKey emptyKeys "u1" "pw")
     "u1" "doc.pdf" "Название" "/tmp/doc.pdf" "pdf" "d" "pw" salt0 iv0 userW
     (by decide) (by decide),
   C7_ciphertext_at_rest.2.2.2.1 [userW] (setUserEncryptionKey emptyKeys "u1" "pw")
     "u1" "Название" "/tmp/p.jpg" "photo" "d" "pw" salt0 iv0 userW
     (by decide) (by decide),
   C7_ciphertext_at_rest.2.2.2.2.1 (setUserEncryptionKey emptyKeys "u1" "pw") "u1" "pw"
     metaP salt0 iv0 (by decide),
   C7_ciphertext_at_rest.2.2.2.2.2 "Название" "pw" salt0 iv0 (by decide) (by decide)⟩

/-- Sixteen-byte authentication tag appended to an encrypted file: the ideal
GCM tag truncated/padded to the fixed 16-byte length the file layout slices
off (TAG_LENGTH of encryption.ts). -/
def fileTag (key iv ct : List Nat) : List Nat :=
  (gcmTag key iv ct ++ List.replicate 16 0).take 16

/-- File encryption at the level of the file bytes (encryptFile of
encryption.ts): write salt then IV, stream the ciphertext, then append the
auth tag once the stream is finalized: salt(64) then iv(16) then ciphertext
then tag(16). -/
def encryptFileBytes (content : List Nat) (password : String)
    (salt iv : List Nat) : List Nat :=
  salt ++ iv ++ xorKeyStream (deriveKey password salt) iv 0 content
    ++ fileTag (deriveKey password salt) iv
        (xorKeyStream (deriveKey password salt) iv 0 content)

/-- File decryption at the level of the file bytes (decryptFile of
encryption.ts): read the whole file, reject anything shorter than
SALT_LENGTH+IV_LENGTH+TAG_LENGTH with the too-small format error, slice
salt, IV, trailing tag and middle ciphertext at the source offsets, verify
the tag, and only then produce the plaintext. -/
def decryptFileBytes (data : List Nat) (password : String) :
    Except CryptoError (List Nat) :=
  if data.length < 64 + 16 + 16 then Except.error CryptoError.formatError
  else
    let salt := data.take 64
    let iv := (data.drop 64).take 16
    let authTag := data.drop (data.length - 16)
    let ct := (data.take (data.length - 16)).drop 80
    let key := deriveKey password salt
    if fileTag key iv ct = authTag then Except.ok (xorKeyStream key iv 0 ct)
    else Except.error CryptoError.authenticationError

/-- Write-step view of decryptFile: the pair of the operation result and the
list of files written.  The source rejects before fs.writeFileSync runs on
any failure, and performs the single complete write on success. -/
def decryptFileOp (data : List Nat) (password dst : String) :
    Except CryptoError Unit × List (String × List Nat) :=
  match decryptFileBytes data password with
  | Except.ok pt => (Except.ok (), [(dst, pt)])
  | Except.error e => (Except.error e, [])

theorem decryptFileBytes_encryptFileBytes (content : List Nat) (p : String)
    (salt iv : List Nat) (hsl : salt.length = 64) (hil : iv.length = 16) :
    decryptFileBytes (encryptFileBytes content p salt iv) p = Except.ok content := by
  have hctl : (xorKeyStream (deriveKey p salt) iv 0 content).length = content.length :=
    xorKeyStream_length 0 content
  have htagl : (fileTag (deriveKey p salt) iv
      (xorKeyStream (deriveKey p salt) iv 0 content)).length = 16 := by
    simp [fileTag]
  have hdata : encryptFileBytes content p salt iv
      = ((salt ++ iv) ++ xorKeyStream (deriveKey p salt) iv 0 content)
        ++ fileTag (deriveKey p salt) iv (xorKeyStream (deriveKey p salt) iv 0 content) := by
    simp [encryptFileBytes, List.append_assoc]
  have hlen : (encryptFileBytes content p salt iv).length = 96 + content.length := by
    rw [hdata]
    simp [List.length_append, hsl, hil, hctl, htagl]
    omega
  have hlen80 : ((salt ++ iv) ++ xorKeyStream (deriveKey p salt) iv 0 content).length
      = 80 + content.length := by
    simp [List.length_append, hsl, hil, hctl]
    omega
  unfold decryptFileBytes
  rw [if_neg (by omega)]
  have hsalt : (encryptFileBytes content p salt iv).take 64 = salt := by
    have : encryptFileBytes content p salt iv
        = salt ++ (iv ++ (xorKeyStream (deriveKey p salt) iv 0 content
            ++ fileTag (deriveKey p salt) iv
                (xorKeyStream (deriveKey p salt) iv 0 content))) := by
      simp [encryptFileBytes, List.append_assoc]
    rw [this, List.take_left' hsl]
  have hiv : ((encryptFileBytes content p salt iv).drop 64).take 16 = iv := by
    have : encryptFileBytes content p salt iv
        = salt ++ (iv ++ (xorKeyStream (deriveKey p salt) iv 0 content
            ++ fileTag (deriveKey p salt) iv
                (xorKeyStream (deriveKey p salt) iv 0 content))) := by
      simp [encryptFileBytes, List.append_assoc]
    rw [this, List.drop_left' hsl, List.take_left' hil]
  have htagidx : (encryptFileBytes content p salt iv).length - 16 = 80 + content.length := by
    omega
  have htagslice : (encryptFileBytes content p salt iv).drop
      ((encryptFileBytes content p salt iv).length - 16)
      = fileTag (deriveKey p salt) iv (xorKeyStream (deriveKey p salt) iv 0 content) := by
    rw [htagidx, hdata, List.drop_left' hlen80]
  have hctslice : ((encryptFileBytes content p salt iv).take
      ((encryptFileBytes content p salt iv).length - 16)).drop 80
      = xorKeyStream (deriveKey p salt) iv 0 content := by
    rw [htagidx, hdata, List.take_left' hlen80]
    have h80 : (salt ++ iv).length = 80 := by
      simp [List.length_append, hsl, hil]
    rw [List.drop_left' h80]
  rw [hsalt, hiv, htagslice, hctslice, if_pos rfl, xorKeyStream_involutive]

/-- C5: encrypting a file and decrypting it with the same password
reproduces the original bytes exactly, for every content — in particular for
the empty file, a one-byte file, and a file larger than 10MB. -/
theorem C5_file_roundtrip :
    (∀ (content : List Nat) (p : String) (salt iv : List Nat),
      salt.length = 64 → iv.length = 16 →
      decryptFileBytes (encryptFileBytes content p salt iv) p = Except.ok content) ∧
    decryptFileBytes (encryptFileBytes [] "pw" salt0 iv0) "pw" = Except.ok [] ∧
    decryptFileBytes (encryptFileBytes [7] "pw" salt0 iv0) "pw" = Except.ok [7] ∧
    decryptFileBytes (encryptFileBytes (List.replicate 10485761 0) "pw" salt0 iv0) "pw"
      = Except.ok (List.replicate 10485761 0) := by
  have hsl : (salt0 : List Nat).length = 64 := by decide
  have hil : (iv0 : List Nat).length = 16 := by decide
  exact ⟨decryptFileBytes_encryptFileBytes,
    decryptFileBytes_encryptFileBytes [] "pw" salt0 iv0 hsl hil,
    decryptFileBytes_encryptFileBytes [7] "pw" salt0 iv0 hsl hil,
    decryptFileBytes_encryptFileBytes (List.replicate 10485761 0) "pw" salt0 iv0 hsl hil⟩

theorem C5_witness :
    (salt0 : List Nat).length = 64 ∧ (iv0 : List Nat).length = 16 ∧
    decryptFileBytes (encryptFileBytes [5] "pw" salt0 iv0) "pw" = Except.ok [5] :=
  ⟨by decide, by decide, C5_file_roundtrip.1 [5] "pw" salt0 iv0 (by decide) (by decide)⟩

/-- C6: a file shorter than saltLen+ivLen+tagLen = 96 bytes is rejected with
the format error and nothing is written; more generally any failing decrypt
writes no output file, and a successful decrypt writes exactly the one
complete plaintext file. -/
theorem C6_short_file_and_atomicity :
    (∀ (data : List Nat) (p dst : String), data.length < 96 →
      decryptFileOp data p dst = (Except.error CryptoError.formatError, [])) ∧
    (∀ (data : List Nat) (p dst : String) (e : CryptoError),
      (decryptFileOp data p dst).1 = Except.error e →
      (decryptFileOp data p dst).2 = []) ∧
    (∀ (data : List Nat) (p dst : String) (pt : List Nat),
      decryptFileBytes data p = Except.ok pt →
      decryptFileOp data p dst = (Except.ok (), [(dst, pt)])) := by
  refine ⟨?_, ?_, ?_⟩
  · intro data p dst hshort
    have hfmt : decryptFileBytes data p = Except.error CryptoError.formatError := by
      unfold decryptFileBytes
      rw [if_pos (by omega)]
    simp [decryptFileOp, hfmt]
  · intro data p dst e h1
    unfold decryptFileOp at h1 ⊢
    cases hd : decryptFileBytes data p with
    | ok pt => rw [hd] at h1; simp at h1
    | error e2 => rfl
  · intro data p dst pt hd
    simp [decryptFileOp, hd]

theorem C6_witness :
    ([1, 2, 3] : List Nat).length < 96 ∧
    decryptFileOp [1, 2, 3] "pw" "/tmp/out" = (Except.error CryptoError.formatError, []) :=
  ⟨by decide, C6_short_file_and_atomicity.1 [1, 2, 3] "pw" "/tmp/out" (by decide)⟩

/-- Row of the legacy media_items table (its title column is mapped into the
name column of the unified files table by the migration INSERT SELECT). -/
structure MediaItemRow where
  id : String
  userId : String
  title : String
  path : String
  kind : String
  createdAt : String
  metadata : String
deriving DecidableEq

/-- Row of the unified files table (and of the legacy file_items table,
whose columns line up one to one). -/
structure FileTableRow where
  id : String
  userId : String
  name : String
  path : String
  kind : String
  createdAt : String
  metadata : String
deriving DecidableEq

/-- Relational schema state inspected by migrateToFilesTable: a table is
present iff its Option is some, holding its rows; hasLinkedItemType records
whether the obsolete diary_entries column exists. -/
structure Schema where
  mediaItems : Option (List MediaItemRow)
  fileItems : Option (List FileTableRow)
  files : Option (List FileTableRow)
  hasLinkedItemType : Bool
  diaryRows : List DiaryRow
deriving DecidableEq

/-- Column mapping of the media_items migration: title feeds the name
column, everything else is copied verbatim (ciphertext rows untouched). -/
def migrateMediaRow (r : MediaItemRow) : FileTableRow :=
  { id := r.id, userId := r.userId, name := r.title, path := r.path,
    kind := r.kind, createdAt := r.createdAt, metadata := r.metadata }

/-- migrateToFilesTable of database.ts: create the files table when a legacy
table exists and files does not; fold media_items rows then file_items rows
into files and drop the legacy tables; rebuild diary_entries without the
linked_item_type column when that column exists (copying all rows).  Every
branch is guarded by a table/column detection check, and the surrounding
try/catch makes the step non-fatal, so the embedded step is total. -/
def migrateToFilesTable (s : Schema) : Schema :=
  let files1 : Option (List FileTableRow) :=
    if (s.mediaItems.isSome || s.fileItems.isSome) && s.files.isNone then some []
    else s.files
  let files2 : Option (List FileTableRow) :=
    match s.mediaItems with
    | some rows => some (files1.getD [] ++ rows.map migrateMediaRow)
    | none => files1
  let files3 : Option (List FileTableRow) :=
    match s.fileItems with
    | some rows => some (files2.getD [] ++ rows)
    | none => files2
  { mediaItems := none, fileItems := none, files := files3,
    hasLinkedItemType := false, diaryRows := s.diaryRows }

/-- C9: running the schema-migration step on an already-migrated store
(unified files table present, legacy tables absent, no linked_item_type
column) changes nothing, and the step is idempotent in general: a second
run after any first run is always the identity.  The step is a total
function of the schema state, so the second run also raises no error. -/
theorem C9_migration_idempotent :
    (∀ s : Schema, s.files.isSome = true → s.mediaItems = none → s.fileItems = none →
      s.hasLinkedItemType = false → migrateToFilesTable s = s) ∧
    (∀ s : Schema, migrateToFilesTable (migrateToFilesTable s) = migrateToFilesTable s) := by
  constructor
  · intro s h1 h2 h3 h4
    cases s with
    | mk mediaItems fileItems files hasLinkedItemType diaryRows =>
        simp only at h2 h3 h4
        subst h2; subst h3; subst h4
        simp [migrateToFilesTable]
  · intro s
    rfl

/-- Already-migrated schema used by the idempotence witness. -/
def schemaW : Schema :=
  { mediaItems := none, fileItems := none,
    files := some [{ id := "f1", userId := "u1", name := "n", path := "p.enc",
                     kind := "pdf", createdAt := "d", metadata := "m" }],
    hasLinkedItemType := false, diaryRows := [] }

theorem C9_witness :
    schemaW.files.isSome = true ∧ schemaW.mediaItems = none ∧
    schemaW.fileItems = none ∧ schemaW.hasLinkedItemType = false ∧
    migrateToFilesTable schemaW = schemaW :=
  ⟨by decide, by decide, by decide, by decide,
   C9_migration_idempotent.1 schemaW (by decide) (by decide) (by decide) (by decide)⟩

end Anamneon
